import Mathlib

/-
Verification of the RhustApp binary XML codec (src/binary/node.rs) and the
JID data model (src/types/jid.rs).

Rust strings are modelled as lists of characters (Rust char comparison and
ordering is code-point comparison, which agrees with this model, and the
byte indices the source obtains from String::find are always char
boundaries, so char-indexed slicing agrees with the source's byte-indexed
slicing on the observed behaviours).  Byte buffers are lists of Nat, each
element < 256 wherever the source produces one.  Fallible operations
(panics, decoder errors) are modelled with Option.  The stateful encoder
(an append-only buffer) is modelled by functions returning the emitted
bytes; the decoder (a buffer plus advancing cursor) by functions consuming
a prefix of the input list and returning the unread remainder.
-/

/-- Abbreviation turning a Lean string literal into the character-list model
of a Rust string. -/
def strL (s : String) : List Char := s.toList

/-- UTF-8 encoding of a single character (RFC 3629), as performed by
Rust String::as_bytes on the underlying well-formed string. -/
def utf8EncodeChar (c : Char) : List Nat :=
  let n := c.toNat
  if n < 0x80 then [n]
  else if n < 0x800 then [0xC0 ||| (n >>> 6), 0x80 ||| (n &&& 0x3F)]
  else if n < 0x10000 then
    [0xE0 ||| (n >>> 12), 0x80 ||| ((n >>> 6) &&& 0x3F), 0x80 ||| (n &&& 0x3F)]
  else
    [0xF0 ||| (n >>> 18), 0x80 ||| ((n >>> 12) &&& 0x3F),
     0x80 ||| ((n >>> 6) &&& 0x3F), 0x80 ||| (n &&& 0x3F)]

/-- UTF-8 encoding of a whole string. -/
def utf8EncodeChars (s : List Char) : List Nat :=
  (s.map utf8EncodeChar).flatten

/-- Strict UTF-8 decoding (RFC 3629: continuation ranges, no overlong forms,
no surrogates, no code points above U+10FFFF), as performed by Rust
String::from_utf8.  Returns none exactly when Rust would return Err. -/
def utf8DecodeQ : List Nat → Option (List Char)
  | [] => some []
  | b :: rest =>
    if b < 0x80 then (utf8DecodeQ rest).map (fun cs => Char.ofNat b :: cs)
    else if b < 0xC2 then none
    else if b < 0xE0 then
      match rest with
      | [] => none
      | b1 :: rest1 =>
        if 0x80 ≤ b1 ∧ b1 < 0xC0 then
          (utf8DecodeQ rest1).map (fun cs => Char.ofNat (((b - 0xC0) <<< 6) + (b1 - 0x80)) :: cs)
        else none
    else if b < 0xF0 then
      match rest with
      | [] => none
      | b1 :: rest1 =>
        match rest1 with
        | [] => none
        | b2 :: rest2 =>
          if (if b = 0xE0 then 0xA0 else 0x80) ≤ b1 ∧ b1 < (if b = 0xED then 0xA0 else 0xC0)
              ∧ 0x80 ≤ b2 ∧ b2 < 0xC0 then
            (utf8DecodeQ rest2).map (fun cs =>
              Char.ofNat (((b - 0xE0) <<< 12) + ((b1 - 0x80) <<< 6) + (b2 - 0x80)) :: cs)
          else none
    else if b < 0xF5 then
      match rest with
      | [] => none
      | b1 :: rest1 =>
        match rest1 with
        | [] => none
        | b2 :: rest2 =>
          match rest2 with
          | [] => none
          | b3 :: rest3 =>
            if (if b = 0xF0 then 0x90 else 0x80) ≤ b1 ∧ b1 < (if b = 0xF4 then 0x90 else 0xC0)
                ∧ 0x80 ≤ b2 ∧ b2 < 0xC0 ∧ 0x80 ≤ b3 ∧ b3 < 0xC0 then
              (utf8DecodeQ rest3).map (fun cs =>
                Char.ofNat (((b - 0xF0) <<< 18) + ((b1 - 0x80) <<< 12)
                  + ((b2 - 0x80) <<< 6) + (b3 - 0x80)) :: cs)
            else none
    else none

/-- Lowercase hex rendering of a byte buffer (the hex crate's encode). -/
def hexDigitChar (n : Nat) : Char :=
  if n < 10 then Char.ofNat (48 + n) else Char.ofNat (97 + n - 10)

def hexEncode (bs : List Nat) : List Char :=
  bs.flatMap fun b => [hexDigitChar (b >>> 4), hexDigitChar (b &&& 15)]

/-- Decimal rendering of a natural number, as Rust Display for unsigned integers. -/
def natDec (n : Nat) : List Char := Nat.toDigits 10 n

/-- Decimal rendering of a signed integer, as Rust Display for signed integers. -/
def intDec (i : Int) : List Char :=
  if i < 0 then '-' :: natDec i.natAbs else natDec i.natAbs

/-- Splitting a string at every occurrence of a separator character, as Rust
str::split with a single-character pattern (always yields at least one part). -/
def splitOnChar (sep : Char) : List Char → List (List Char)
  | [] => [[]]
  | c :: rest =>
    let r := splitOnChar sep rest
    if c = sep then [] :: r
    else
      match r with
      | [] => [[c]]
      | h :: t => (c :: h) :: t

/-- Default server for users (src/types/jid.rs). -/
def DEFAULT_USER_SERVER : List Char := strL "s.whatsapp.net"

/-- JID represents a WhatsApp user or group ID (src/types/jid.rs). -/
structure JID where
  user : List Char
  agent : Option Nat
  device : Option Nat
  server : List Char
deriving DecidableEq, Repr

namespace JID

/-- Creates a new regular JID (JID::new). -/
def new (user server : List Char) : JID :=
  { user := user, agent := none, device := none, server := server }

/-- Creates an AD-JID with the fixed default user server (JID::new_ad). -/
def new_ad (user : List Char) (agent device : Nat) : JID :=
  { user := user, agent := some agent, device := some device, server := DEFAULT_USER_SERVER }

/-- Returns whether the JID is an AD-JID (JID::is_ad). -/
def is_ad (j : JID) : Bool :=
  j.agent.isSome && j.device.isSome

/-- JID::is_empty, whose body is `self.server.len() != 0`. -/
def is_empty (j : JID) : Bool :=
  j.server.length != 0

/-- The shared empty JID sentinel (EMPTY_JID in src/types/jid.rs). -/
def EMPTY_JID : JID := new [] []

/-- JID::to_string: `user.agent:device@server` for AD-JIDs, `user@server`
when the user is non-empty, otherwise just the server. -/
def to_string (j : JID) : List Char :=
  if j.is_ad then
    j.user ++ '.' :: natDec (j.agent.getD 0) ++ ':' :: natDec (j.device.getD 0) ++ '@' :: j.server
  else if j.user.length > 0 then
    j.user ++ '@' :: j.server
  else
    j.server

end JID

/-- Rust u8::from_str: an optional leading plus sign, then one or more
decimal digits, value at most 255; anything else is an error. -/
def parse_u8 (s : List Char) : Option Nat :=
  let digits :=
    match s with
    | '+' :: rest => rest
    | _ => s
  if digits.isEmpty then none
  else if digits.all (fun c => 48 ≤ c.toNat && c.toNat ≤ 57) then
    let v := digits.foldl (fun acc c => acc * 10 + (c.toNat - 48)) 0
    if v < 256 then some v else none
  else none

/-- parse_ad_jid (src/types/jid.rs): find the first dot and the first colon,
require the colon not to precede the dot, take the user before the dot, the
agent byte between dot and colon, and the device byte after the colon. -/
def parse_ad_jid (u : List Char) : Option JID :=
  match u.findIdx? (fun c => c == '.'), u.findIdx? (fun c => c == ':') with
  | some dot_index, some colon_index =>
    if colon_index + 1 ≤ dot_index then none
    else
      match parse_u8 ((u.drop (dot_index + 1)).take (colon_index - (dot_index + 1))) with
      | none => none
      | some agent =>
        match parse_u8 (u.drop (colon_index + 1)) with
        | none => none
        | some device =>
          some { user := u.take dot_index, agent := some agent,
                 device := some device, server := DEFAULT_USER_SERVER }
  | _, _ => none

/-- FromStr for JID: split at every `@`; with one part the whole string is
the server; with two or more parts, if the first part contains both `:` and
`.` and the second equals the default user server, parse as AD-JID,
otherwise the first part is the user and the second the server. -/
def JID.from_str (s : List Char) : Option JID :=
  let parts := splitOnChar '@' s
  match parts with
  | [] => none
  | [p0] => some (JID.new [] p0)
  | p0 :: p1 :: _ =>
    if p0.any (fun c => c == ':') && p0.any (fun c => c == '.') && p1 == DEFAULT_USER_SERVER then
      parse_ad_jid p0
    else
      some (JID.new p0 p1)

/-- Modelled from the spec: the token module (reserved tag bytes of the wire
grammar, section 4.1) is not among the provided sources; only the names and
the roles of the reserved bytes are specified, so they are modelled as
distinct byte constants with the conventional values of this wire format. -/
def LIST_EMPTY : Nat := 0

def DICTIONARY0 : Nat := 236

def DICTIONARY1 : Nat := 237

def DICTIONARY2 : Nat := 238

def DICTIONARY3 : Nat := 239

def ADJID : Nat := 247

def LIST8 : Nat := 248

def LIST16 : Nat := 249

def JID_PAIR : Nat := 250

def HEX8 : Nat := 251

def BINARY8 : Nat := 252

def BINARY20 : Nat := 253

def BINARY32 : Nat := 254

def NIBBLE8 : Nat := 255

/-- Modelled from the spec: PACKED_MAX bounds the length of a single packed
string (section 4.1); its concrete value is the conventional one.  The
developments below only use that it is at most 254. -/
def PACKED_MAX : Nat := 254

/-- Modelled from the spec: the two externally authored token dictionaries
(single-byte table and four secondary tables) with their forward and reverse
lookups (section 4.1).  Their contents ship with the codec and are not part
of the provided sources, so the codec is parametrised over them. -/
structure TokenTables where
  indexOfSingle : List Char → Option Nat
  indexOfDouble : List Char → Option (Nat × Nat)
  getSingle : Nat → Option (List Char)
  getDouble : Nat → Nat → Option (List Char)
  singleLen : Nat

/-- A trivial token-table instantiation on which every dictionary lookup
misses; used to evaluate the codec on concrete inputs whose strings are not
dictionary tokens. -/
def noTokens : TokenTables :=
  { indexOfSingle := fun _ => none
    indexOfDouble := fun _ => none
    getSingle := fun _ => none
    getDouble := fun _ _ => none
    singleLen := 0 }

/-- Attribute values of an XML element: a string or a JID (AttributeTypes in
src/binary/node.rs). -/
inductive AttributeTypes where
  | JID (j : JID)
  | String (s : List Char)
deriving DecidableEq, Repr

/-- AttributeTypes::to_string. -/
def AttributeTypes.to_string : AttributeTypes → List Char
  | .String s => s
  | .JID j => j.to_string

/- Node content (NodeContentType in src/binary/node.rs) and the XML element
model (Node): tag, attribute mapping, content.  The attribute mapping is a
HashMap in the source; it is modelled as an association list in the
encoder's iteration order. -/
mutual

inductive NodeContentType where
  | None
  | ListOfNodes (nodes : List Node)
  | ByteArray (bytes : List Nat)
  | JID (j : JID)
  | String (s : List Char)
  | I32 (i : Int)
  | U32 (u : Nat)
  | I64 (i : Int)
  | U64 (u : Nat)
  | Bool (b : Bool)

inductive Node where
  | mk (tag : List Char) (attrs : List (List Char × AttributeTypes)) (content : NodeContentType)

end

/-- Tag of a node. -/
def Node.tag : Node → List Char
  | .mk t _ _ => t

/-- Attribute mapping of a node. -/
def Node.attrs : Node → List (List Char × AttributeTypes)
  | .mk _ a _ => a

/-- Content of a node. -/
def Node.content : Node → NodeContentType
  | .mk _ _ c => c

/-- NodeContentType::other_types_to_string: the textual form of the
encoder-only scalar variants, empty for the structural variants. -/
def NodeContentType.other_types_to_string : NodeContentType → List Char
  | .None => []
  | .ListOfNodes _ => []
  | .ByteArray _ => []
  | .JID v => v.to_string
  | .String v => v
  | .I32 v => intDec v
  | .U32 v => natDec v
  | .I64 v => intDec v
  | .U64 v => natDec v
  | .Bool v => if v then strL "true" else strL "false"

namespace BinaryEncoder

/-- BinaryEncoder::push_i_20: three bytes, the top 4 bits of the value in the
first byte (masked to its low nibble), then the next 16 bits big-endian. -/
def push_i_20 (value : Nat) : List Nat :=
  [(value >>> 16) &&& 0x0F, (value >>> 8) &&& 0xFF, value &&& 0xFF]

/-- BinaryEncoder::push_i_n with n = 1, big-endian. -/
def push_i_8 (value : Nat) : List Nat :=
  [value &&& 0xFF]

/-- BinaryEncoder::push_i_n with n = 2, big-endian. -/
def push_i_16 (value : Nat) : List Nat :=
  [(value >>> 8) &&& 0xFF, value &&& 0xFF]

/-- BinaryEncoder::push_i_n with n = 4, big-endian.  The i32 value pushed by
the source is represented by its bit pattern as a natural number below 2^32;
the arithmetic right shifts combined with the 0xFF masks extract exactly the
bytes of that bit pattern. -/
def push_i_32 (value : Nat) : List Nat :=
  [(value >>> 24) &&& 0xFF, (value >>> 16) &&& 0xFF, (value >>> 8) &&& 0xFF, value &&& 0xFF]

/-- The value of `length as i32` for a usize length: truncate to 32 bits and
reinterpret as a signed two's-complement integer. -/
def i32cast (n : Nat) : Int :=
  let w : Nat := n % 2 ^ 32
  if w < 2 ^ 31 then (w : Int) else (w : Int) - 2 ^ 32

/-- BinaryEncoder::write_byte_length: BINARY8 with one length byte below 256,
BINARY20 with three length bytes below 2^20, BINARY32 with four length bytes
while `(length as i32) < i32::MAX`, otherwise a panic (modelled as none). -/
def write_byte_length (length : Nat) : Option (List Nat) :=
  if length < 256 then some (BINARY8 :: push_i_8 length)
  else if length < 2 ^ 20 then some (BINARY20 :: push_i_20 length)
  else if i32cast length < 2147483647 then some (BINARY32 :: push_i_32 (length % 2 ^ 32))
  else none

/-- BinaryEncoder::validate_nibble: length at most PACKED_MAX and every
character a decimal digit, a dash or a dot (char comparisons in the source
are code-point comparisons). -/
def validate_nibble (value : List Char) : Bool :=
  if value.length > PACKED_MAX then false
  else value.all fun c => (48 ≤ c.toNat && c.toNat ≤ 57) || c.toNat == 45 || c.toNat == 46

/-- BinaryEncoder::pack_nibble on the char-as-u8 value: dash to 10, dot to
11, NUL to 15, digits to their value, anything else a panic. -/
def pack_nibble (value : Nat) : Option Nat :=
  if value = 45 then some 10
  else if value = 46 then some 11
  else if value = 0 then some 15
  else if 48 ≤ value ∧ value ≤ 57 then some (value - 48)
  else none

/-- BinaryEncoder::validate_hex: length at most PACKED_MAX and every
character a decimal digit or a hex letter of either case. -/
def validate_hex (value : List Char) : Bool :=
  if value.length > PACKED_MAX then false
  else value.all fun c =>
    (48 ≤ c.toNat && c.toNat ≤ 57) || (65 ≤ c.toNat && c.toNat ≤ 70)
      || (97 ≤ c.toNat && c.toNat ≤ 102)

/-- BinaryEncoder::pack_hex on the char-as-u8 value: digits and hex letters
of either case to 0..15, NUL to 15, anything else a panic. -/
def pack_hex (value : Nat) : Option Nat :=
  if 48 ≤ value ∧ value ≤ 57 then some (value - 48)
  else if 65 ≤ value ∧ value ≤ 70 then some (10 + value - 65)
  else if 97 ≤ value ∧ value ≤ 102 then some (10 + value - 97)
  else if value = 0 then some 15
  else none

/-- BinaryEncoder::pack_byte_pair: high nibble from the first symbol, low
nibble from the second. -/
def pack_byte_pair (packer : Nat → Option Nat) (part1 part2 : Nat) : Option Nat :=
  match packer part1, packer part2 with
  | some hi, some lo => some ((hi <<< 4) ||| lo)
  | _, _ => none

/-- The packing loop of BinaryEncoder::write_packed_bytes: consecutive
character pairs are packed into single bytes; a trailing odd character is
packed against the NUL sentinel (`as u8` truncates the char code to 8 bits). -/
def packPairs (packer : Nat → Option Nat) : List Char → Option (List Nat)
  | [] => some []
  | [c] =>
    match pack_byte_pair packer (c.toNat % 256) 0 with
    | some b => some [b]
    | none => none
  | c1 :: c2 :: rest =>
    match pack_byte_pair packer (c1.toNat % 256) (c2.toNat % 256) with
    | some b =>
      match packPairs packer rest with
      | some bs => some (b :: bs)
      | none => none
    | none => none

/-- BinaryEncoder::write_packed_bytes: panic above PACKED_MAX; emit the data
type tag, then one length byte holding the rounded-up half length with the
top bit set on odd input length, then the packed payload. -/
def write_packed_bytes (value : List Char) (data_type : Nat) : Option (List Nat) :=
  if value.length > PACKED_MAX then none
  else
    let half := (value.length + 1) / 2
    let rounded_length := if value.length % 2 != 0 then half ||| 128 else half
    match (if data_type = NIBBLE8 then some pack_nibble
           else if data_type = HEX8 then some pack_hex else none : Option (Nat → Option Nat)) with
    | none => none
    | some packer =>
      match packPairs packer value with
      | some payload => some (data_type :: rounded_length :: payload)
      | none => none

/-- BinaryEncoder::write_string_raw: length prefix via write_byte_length of
the UTF-8 byte length, then the raw UTF-8 bytes. -/
def write_string_raw (data : List Char) : Option (List Nat) :=
  match write_byte_length (utf8EncodeChars data).length with
  | some pre => some (pre ++ utf8EncodeChars data)
  | none => none

/-- BinaryEncoder::write_string: single-byte token, double-byte token,
packed nibble form, packed hex form, raw length-prefixed string, in that
order. -/
def write_string (t : TokenTables) (data : List Char) : Option (List Nat) :=
  match t.indexOfSingle data with
  | some token_index => some [token_index]
  | none =>
    match t.indexOfDouble data with
    | some (dict_index, token_index) => some [DICTIONARY0 + dict_index, token_index]
    | none =>
      if validate_nibble data then write_packed_bytes data NIBBLE8
      else if validate_hex data then write_packed_bytes data HEX8
      else write_string_raw data

/-- BinaryEncoder::write_bytes: length prefix, then the raw bytes. -/
def write_bytes (data : List Nat) : Option (List Nat) :=
  match write_byte_length data.length with
  | some pre => some (pre ++ data)
  | none => none

/-- BinaryEncoder::write_jid.  AD form: the ADJID tag, the agent byte, the
device byte, then the user string.  Pair form as written in the source: the
JID_PAIR tag, then the user (or LIST_EMPTY when the user is empty), then the
user AGAIN — the source emits `jid.user` in the second position where the
decoder expects the server. -/
def write_jid (t : TokenTables) (jid : JID) : Option (List Nat) :=
  match jid.agent, jid.device with
  | some agent, some device =>
    match write_string t jid.user with
    | some u => some (ADJID :: agent :: device :: u)
    | none => none
  | _, _ =>
    match (if jid.user.length = 0 then some [LIST_EMPTY] else write_string t jid.user) with
    | some first => 
      match write_string t jid.user with
      | some second => some (JID_PAIR :: first ++ second)
      | none => none
    | none => none

/-- BinaryEncoder::write_list_start: LIST_EMPTY for size zero, LIST8 with a
one-byte size below 256, LIST16 with a two-byte big-endian size otherwise. -/
def write_list_start (list_size : Nat) : List Nat :=
  if list_size = 0 then [LIST_EMPTY]
  else if list_size < 256 then LIST8 :: push_i_8 list_size
  else LIST16 :: push_i_16 list_size

/-- BinaryEncoder::write_attributes: for each pair, a String value is
skipped when empty and otherwise written as key then value; a JID value is
always written as key then JID. -/
def write_attributes (t : TokenTables) : List (List Char × AttributeTypes) → Option (List Nat)
  | [] => some []
  | (key, AttributeTypes.String s) :: rest =>
    if s.isEmpty then write_attributes t rest
    else
      match write_string t key, write_string t s, write_attributes t rest with
      | some kb, some vb, some rb => some (kb ++ vb ++ rb)
      | _, _, _ => none
  | (key, AttributeTypes.JID j) :: rest =>
    match write_string t key, write_jid t j, write_attributes t rest with
    | some kb, some vb, some rb => some (kb ++ vb ++ rb)
    | _, _, _ => none

/- BinaryEncoder::write and BinaryEncoder::write_node, mutually recursive
through list content; the fuel argument only bounds the recursion depth and
is decremented at each entry of either function. -/
mutual

def write (t : TokenTables) : Nat → NodeContentType → Option (List Nat)
  | 0, _ => none
  | _ + 1, NodeContentType.None => some [LIST_EMPTY]
  | _ + 1, NodeContentType.JID j => write_jid t j
  | _ + 1, NodeContentType.String s => write_string t s
  | _ + 1, NodeContentType.I32 i => write_string t (intDec i)
  | _ + 1, NodeContentType.U32 u => write_string t (natDec u)
  | _ + 1, NodeContentType.I64 i => write_string t (intDec i)
  | _ + 1, NodeContentType.U64 u => write_string t (natDec u)
  | _ + 1, NodeContentType.Bool b => write_string t (if b then strL "true" else strL "false")
  | _ + 1, NodeContentType.ByteArray b => write_bytes b
  | fuel + 1, NodeContentType.ListOfNodes l =>
    match writeNodeList t fuel l with
    | some parts => some (write_list_start l.length ++ parts)
    | none => none

def writeNodeList (t : TokenTables) : Nat → List Node → Option (List Nat)
  | _, [] => some []
  | 0, _ :: _ => none
  | fuel + 1, n :: rest =>
    match write_node t fuel n, writeNodeList t fuel rest with
    | some nb, some rb => some (nb ++ rb)
    | _, _ => none

def write_node (t : TokenTables) : Nat → Node → Option (List Nat)
  | 0, _ => none
  | fuel + 1, n =>
    if n.tag = strL "0" then some [LIST8, LIST_EMPTY]
    else
      let has_content : Nat :=
        match n.content with
        | NodeContentType.None => 0
        | _ => 1
      match write_string t n.tag, write_attributes t n.attrs,
            (if has_content = 1 then write t fuel n.content else some []) with
      | some tagb, some attrb, some contentb =>
        some (write_list_start (2 * n.attrs.length + 1 + has_content) ++ tagb ++ attrb ++ contentb)
      | _, _, _ => none

end

end BinaryEncoder

namespace BinaryDecoder

/-- BinaryDecoder::read_byte: one byte, or an error past the end. -/
def read_byte : List Nat → Option (Nat × List Nat)
  | [] => none
  | b :: rest => some (b, rest)

/-- BinaryDecoder::read_bytes: a checked slice of the given length. -/
def read_bytes (length : Nat) (input : List Nat) : Option (List Nat × List Nat) :=
  if input.length < length then none
  else some (input.take length, input.drop length)

/-- BinaryDecoder::read_i_n: n bytes OR-ed together at their byte shifts,
big- or little-endian. -/
def read_i_n (n : Nat) (little_endian : Bool) (input : List Nat) : Option (Nat × List Nat) :=
  if input.length < n then none
  else
    let v := (List.range n).foldl
      (fun acc i =>
        acc ||| ((input.getD i 0) <<< ((if little_endian then i else n - i - 1) * 8))) 0
    some (v, input.drop n)

def read_i_8 (little_endian : Bool) (input : List Nat) : Option (Nat × List Nat) :=
  read_i_n 1 little_endian input

def read_i_16 (little_endian : Bool) (input : List Nat) : Option (Nat × List Nat) :=
  read_i_n 2 little_endian input

def read_i_32 (little_endian : Bool) (input : List Nat) : Option (Nat × List Nat) :=
  read_i_n 4 little_endian input

/-- BinaryDecoder::read_i_20: mask the first byte with 0x0F and shift it
left 16, add the second byte shifted 8, add the third byte. -/
def read_i_20 (input : List Nat) : Option (Nat × List Nat) :=
  if input.length < 3 then none
  else some ((((input.getD 0 0) &&& 15) <<< 16) + ((input.getD 1 0) <<< 8) + input.getD 2 0,
             input.drop 3)

/-- BinaryDecoder::unpack_nibble: 0..9 to digits, 10 to dash, 11 to dot, 15
to NUL, everything else an error. -/
def unpack_nibble (value : Nat) : Option Nat :=
  if value < 10 then some (48 + value)
  else if value = 10 then some 45
  else if value = 11 then some 46
  else if value = 15 then some 0
  else none

/-- BinaryDecoder::unpack_hex: 0..9 to digits, 10..15 to uppercase letters. -/
def unpack_hex (value : Nat) : Option Nat :=
  if value < 10 then some (48 + value)
  else if value < 16 then some (65 + value - 10)
  else none

/-- BinaryDecoder::unpack_byte: dispatch on the packed tag. -/
def unpack_byte (tag value : Nat) : Option Nat :=
  if tag = NIBBLE8 then unpack_nibble value
  else if tag = HEX8 then unpack_hex value
  else none

/-- The unpacking loop of BinaryDecoder::read_packed_8: for each of the
given number of payload bytes, unpack the high nibble and then the low
nibble. -/
def readPackedLoop (tag : Nat) : Nat → List Nat → Option (List Nat × List Nat)
  | 0, input => some ([], input)
  | m + 1, input =>
    match read_byte input with
    | none => none
    | some (curr, r) =>
      match unpack_byte tag ((curr &&& 0xF0) >>> 4), unpack_byte tag (curr &&& 0x0F) with
      | some lower, some upper =>
        match readPackedLoop tag m r with
        | some (bs, r2) => some (lower :: upper :: bs, r2)
        | none => none
      | _, _ => none

/-- BinaryDecoder::read_packed_8: one length byte whose low 7 bits count the
payload bytes, the unpacking loop, UTF-8 conversion, and removal of the
final character when the top bit of the length byte is set. -/
def read_packed_8 (tag : Nat) (input : List Nat) : Option (List Char × List Nat) :=
  match read_byte input with
  | none => none
  | some (start_byte, r) =>
    match readPackedLoop tag (start_byte &&& 127) r with
    | none => none
    | some (bytes, r2) =>
      match utf8DecodeQ bytes with
      | none => none
      | some ret =>
        some ((if start_byte >>> 7 != 0 then ret.dropLast else ret), r2)

/-- BinaryDecoder::read_list_size: zero for LIST_EMPTY, one byte for LIST8,
two bytes for LIST16, otherwise an error. -/
def read_list_size (tag : Nat) (input : List Nat) : Option (Nat × List Nat) :=
  if tag = LIST_EMPTY then some (0, input)
  else if tag = LIST8 then read_i_8 false input
  else if tag = LIST16 then read_i_16 false input
  else none

/- The mutually recursive reading family (BinaryDecoder::read, read_list,
read_node, read_jid_pair, read_ad_jid, read_attributes).  The fuel bounds
the recursion depth; every function consumes one unit on entry. -/
mutual

def read (t : TokenTables) : Nat → Bool → List Nat → Option (NodeContentType × List Nat)
  | 0, _, _ => none
  | fuel + 1, as_string, input =>
    match read_byte input with
    | none => none
    | some (tag_byte, r) =>
      if tag_byte = LIST_EMPTY then some (NodeContentType.None, r)
      else if tag_byte = LIST8 ∨ tag_byte = LIST16 then
        match read_list t fuel tag_byte r with
        | some (l, r2) => some (NodeContentType.ListOfNodes l, r2)
        | none => none
      else if tag_byte = BINARY8 then
        match read_i_8 false r with
        | none => none
        | some (size, r1) =>
          match read_bytes size r1 with
          | none => none
          | some (bytes, r2) =>
            if as_string then
              match utf8DecodeQ bytes with
              | some s => some (NodeContentType.String s, r2)
              | none => none
            else some (NodeContentType.ByteArray bytes, r2)
      else if tag_byte = BINARY20 then
        match read_i_20 r with
        | none => none
        | some (size, r1) =>
          match read_bytes size r1 with
          | none => none
          | some (bytes, r2) =>
            if as_string then
              match utf8DecodeQ bytes with
              | some s => some (NodeContentType.String s, r2)
              | none => none
            else some (NodeContentType.ByteArray bytes, r2)
      else if tag_byte = BINARY32 then
        match read_i_32 false r with
        | none => none
        | some (size, r1) =>
          match read_bytes size r1 with
          | none => none
          | some (bytes, r2) =>
            if as_string then
              match utf8DecodeQ bytes with
              | some s => some (NodeContentType.String s, r2)
              | none => none
            else some (NodeContentType.ByteArray bytes, r2)
      else if tag_byte = DICTIONARY0 ∨ tag_byte = DICTIONARY1
              ∨ tag_byte = DICTIONARY2 ∨ tag_byte = DICTIONARY3 then
        match read_i_8 false r with
        | none => none
        | some (i, r1) =>
          match t.getDouble (tag_byte - DICTIONARY0) i with
          | some val => some (NodeContentType.String val, r1)
          | none => none
      else if tag_byte = JID_PAIR then
        match read_jid_pair t fuel r with
        | some (j, r2) => some (NodeContentType.JID j, r2)
        | none => none
      else if tag_byte = ADJID then
        match read_ad_jid t fuel r with
        | some (j, r2) => some (NodeContentType.JID j, r2)
        | none => none
      else if tag_byte = NIBBLE8 ∨ tag_byte = HEX8 then
        match read_packed_8 tag_byte r with
        | some (s, r2) => some (NodeContentType.String s, r2)
        | none => none
      else if 1 ≤ tag_byte ∧ tag_byte < t.singleLen then
        match t.getSingle tag_byte with
        | some val => some (NodeContentType.String val, r)
        | none => none
      else none

def read_jid_pair (t : TokenTables) : Nat → List Nat → Option (JID × List Nat)
  | 0, _ => none
  | fuel + 1, input =>
    match read t fuel true input with
    | none => none
    | some (user, r1) =>
      match read t fuel true r1 with
      | none => none
      | some (server, r2) =>
        match server, user with
        | NodeContentType.String s, NodeContentType.None => some (JID.new [] s, r2)
        | NodeContentType.String s, NodeContentType.String u => some (JID.new u s, r2)
        | _, _ => none

def read_ad_jid (t : TokenTables) : Nat → List Nat → Option (JID × List Nat)
  | 0, _ => none
  | fuel + 1, input =>
    match read_byte input with
    | none => none
    | some (agent, r1) =>
      match read_byte r1 with
      | none => none
      | some (device, r2) =>
        match read t fuel true r2 with
        | some (NodeContentType.String u, r3) => some (JID.new_ad u agent device, r3)
        | _ => none

def read_attributes (t : TokenTables) :
    Nat → Nat → List Nat → Option (List (List Char × AttributeTypes) × List Nat)
  | 0, _, _ => none
  | _ + 1, 0, input => some ([], input)
  | fuel + 1, n + 1, input =>
    match read t fuel true input with
    | some (NodeContentType.String key, r1) =>
      match read t fuel true r1 with
      | none => none
      | some (value, r2) =>
        match value with
        | NodeContentType.JID j =>
          match read_attributes t fuel n r2 with
          | some (rest, r3) => some ((key, AttributeTypes.JID j) :: rest, r3)
          | none => none
        | NodeContentType.String s =>
          match read_attributes t fuel n r2 with
          | some (rest, r3) => some ((key, AttributeTypes.String s) :: rest, r3)
          | none => none
        | _ => none
    | some _ => none
    | none => none

def read_list (t : TokenTables) : Nat → Nat → List Nat → Option (List Node × List Nat)
  | 0, _, _ => none
  | fuel + 1, tag, input =>
    match read_list_size tag input with
    | none => none
    | some (size, r) => readListLoop t fuel size r

def readListLoop (t : TokenTables) : Nat → Nat → List Nat → Option (List Node × List Nat)
  | 0, _, _ => none
  | _ + 1, 0, input => some ([], input)
  | fuel + 1, size + 1, input =>
    match read_node t fuel input with
    | none => none
    | some (node, r) =>
      match readListLoop t fuel size r with
      | some (nodes, r2) => some (node :: nodes, r2)
      | none => none

def read_node (t : TokenTables) : Nat → List Nat → Option (Node × List Nat)
  | 0, _ => none
  | fuel + 1, input =>
    match read_i_8 false input with
    | none => none
    | some (size, r0) =>
      match read_list_size size r0 with
      | none => none
      | some (list_size, r1) =>
        if list_size = 0 then none
        else
          match read t fuel true r1 with
          | some (NodeContentType.String s, r2) =>
            if s.isEmpty then none
            else
              match read_attributes t fuel ((list_size - 1) >>> 1) r2 with
              | none => none
              | some (attrs, r3) =>
                if list_size % 2 = 1 then some (Node.mk s attrs NodeContentType.None, r3)
                else
                  match read t fuel false r3 with
                  | some (content, r4) => some (Node.mk s attrs content, r4)
                  | none => none
          | some _ => none
          | none => none

end

end BinaryDecoder

/-- Structured stand-ins for the RhustAppError values pushed by the
attribute utility (each constructor captures one distinct push site and the
key interpolated into its message). -/
inductive AttrErr where
  | expectedJidGotString (key : List Char)
  | missingJid (key : List Char)
  | expectedStringGotJid (key : List Char)
  | missingString (key : List Char)
  | parseI64 (key : List Char)
  | parseU64 (key : List Char)
  | parseBool (key : List Char)
deriving DecidableEq, Repr

/-- Rust i64::from_str: optional sign, digits, two's-complement range. -/
def parse_i64_rust (s : List Char) : Option Int :=
  let signed : Option (Bool × List Char) :=
    match s with
    | '+' :: rest => some (false, rest)
    | '-' :: rest => some (true, rest)
    | _ => some (false, s)
  match signed with
  | none => none
  | some (neg, digits) =>
    if digits.isEmpty then none
    else if digits.all (fun c => 48 ≤ c.toNat && c.toNat ≤ 57) then
      let v : Nat := digits.foldl (fun acc c => acc * 10 + (c.toNat - 48)) 0
      let i : Int := if neg then -(v : Int) else (v : Int)
      if -(2 ^ 63) ≤ i ∧ i < 2 ^ 63 then some i else none
    else none

/-- Rust u64::from_str: optional plus sign, digits, range below 2^64. -/
def parse_u64_rust (s : List Char) : Option Nat :=
  let digits :=
    match s with
    | '+' :: rest => rest
    | _ => s
  if digits.isEmpty then none
  else if digits.all (fun c => 48 ≤ c.toNat && c.toNat ≤ 57) then
    let v := digits.foldl (fun acc c => acc * 10 + (c.toNat - 48)) 0
    if v < 2 ^ 64 then some v else none
  else none

/-- Modelled from the spec: time::OffsetDateTime is external to the
repository; it is modelled by its Unix-second value, and
OffsetDateTime::from_unix_timestamp by its documented validity range
(years -9999 to 9999). -/
def from_unix_timestamp (ts : Int) : Option Int :=
  if -377705116800 ≤ ts ∧ ts ≤ 253402300799 then some ts else none

namespace AttrUtility

/-- The attribute mapping an AttrUtility borrows (HashMap::get modelled as
first association-list hit). -/
def lookup (attrs : List (List Char × AttributeTypes)) (key : List Char) :
    Option AttributeTypes :=
  match attrs.find? (fun kv => kv.fst == key) with
  | some kv => some kv.snd
  | none => none

/-- AttrUtility::get_jid: the value under the key when it is a JID; on a
String value or a missing key, an error is recorded only when required. -/
def get_jid (attrs : List (List Char × AttributeTypes)) (key : List Char) (required : Bool) :
    Option JID × List AttrErr :=
  match lookup attrs key with
  | some (AttributeTypes.JID jid) => (some jid, [])
  | some (AttributeTypes.String _) =>
    (none, if required then [AttrErr.expectedJidGotString key] else [])
  | none => (none, if required then [AttrErr.missingJid key] else [])

def optional_jid (attrs : List (List Char × AttributeTypes)) (key : List Char) :
    Option JID × List AttrErr :=
  get_jid attrs key false

def jid (attrs : List (List Char × AttributeTypes)) (key : List Char) :
    Option JID × List AttrErr :=
  get_jid attrs key true

/-- AttrUtility::get_string, mirror of get_jid with the variants swapped. -/
def get_string (attrs : List (List Char × AttributeTypes)) (key : List Char) (required : Bool) :
    Option (List Char) × List AttrErr :=
  match lookup attrs key with
  | some (AttributeTypes.String s) => (some s, [])
  | some (AttributeTypes.JID _) =>
    (none, if required then [AttrErr.expectedStringGotJid key] else [])
  | none => (none, if required then [AttrErr.missingString key] else [])

def optional_string (attrs : List (List Char × AttributeTypes)) (key : List Char) :
    Option (List Char) × List AttrErr :=
  get_string attrs key false

def string (attrs : List (List Char × AttributeTypes)) (key : List Char) :
    Option (List Char) × List AttrErr :=
  get_string attrs key true

/-- AttrUtility::get_i64: route through get_string, then parse; a parse
failure records an error only when required. -/
def get_i64 (attrs : List (List Char × AttributeTypes)) (key : List Char) (required : Bool) :
    Option Int × List AttrErr :=
  match get_string attrs key required with
  | (some s, es) =>
    match parse_i64_rust s with
    | some val => (some val, es)
    | none => (none, es ++ if required then [AttrErr.parseI64 key] else [])
  | (none, es) => (none, es)

def i64 (attrs : List (List Char × AttributeTypes)) (key : List Char) :
    Option Int × List AttrErr :=
  get_i64 attrs key true

/-- AttrUtility::get_u64, as get_i64 with the unsigned parser. -/
def get_u64 (attrs : List (List Char × AttributeTypes)) (key : List Char) (required : Bool) :
    Option Nat × List AttrErr :=
  match get_string attrs key required with
  | (some s, es) =>
    match parse_u64_rust s with
    | some val => (some val, es)
    | none => (none, es ++ if required then [AttrErr.parseU64 key] else [])
  | (none, es) => (none, es)

def u64 (attrs : List (List Char × AttributeTypes)) (key : List Char) :
    Option Nat × List AttrErr :=
  get_u64 attrs key true

/-- AttrUtility::get_bool: the exact true and false literal sets of the
source match; any other string records a parse error only when required. -/
def get_bool (attrs : List (List Char × AttributeTypes)) (key : List Char) (required : Bool) :
    Option Bool × List AttrErr :=
  match get_string attrs key required with
  | (some s, es) =>
    if s = strL "1" ∨ s = strL "t" ∨ s = strL "T"
        ∨ s = strL "true" ∨ s = strL "TRUE" ∨ s = strL "True" then (some true, es)
    else if s = strL "0" ∨ s = strL "f" ∨ s = strL "F"
        ∨ s = strL "false" ∨ s = strL "FALSE" ∨ s = strL "False" then (some false, es)
    else (none, es ++ if required then [AttrErr.parseBool key] else [])
  | (none, es) => (none, es)

def optional_bool (attrs : List (List Char × AttributeTypes)) (key : List Char) :
    Option Bool × List AttrErr :=
  get_bool attrs key false

def bool (attrs : List (List Char × AttributeTypes)) (key : List Char) :
    Option Bool × List AttrErr :=
  get_bool attrs key true

/-- AttrUtility::get_unix_time: i64 seconds through get_i64; zero maps to
the Unix epoch; out-of-range seconds yield absent without an error. -/
def get_unix_time (attrs : List (List Char × AttributeTypes)) (key : List Char)
    (required : Bool) : Option Int × List AttrErr :=
  match get_i64 attrs key required with
  | (some ts, es) =>
    if ts = 0 then (some 0, es)
    else
      match from_unix_timestamp ts with
      | some dt => (some dt, es)
      | none => (none, es)
  | (none, es) => (none, es)

def optional_unix_time (attrs : List (List Char × AttributeTypes)) (key : List Char) :
    Option Int × List AttrErr :=
  get_unix_time attrs key false

def unix_time (attrs : List (List Char × AttributeTypes)) (key : List Char) :
    Option Int × List AttrErr :=
  get_unix_time attrs key true

/-- The value of `i as i32` for an i64 value: truncate to 32 bits and
reinterpret as signed. -/
def i64_as_i32 (i : Int) : Int :=
  let w : Int := i % 2 ^ 32
  if w < 2 ^ 31 then w else w - 2 ^ 32

def optional_i32 (attrs : List (List Char × AttributeTypes)) (key : List Char) :
    Option Int × List AttrErr :=
  match get_i64 attrs key false with
  | (some i, es) => (some (i64_as_i32 i), es)
  | (none, es) => (none, es)

def i32 (attrs : List (List Char × AttributeTypes)) (key : List Char) :
    Option Int × List AttrErr :=
  match get_i64 attrs key true with
  | (some i, es) => (some (i64_as_i32 i), es)
  | (none, es) => (none, es)

end AttrUtility

/-- unpack_data (src/binary/node.rs): an empty buffer is an error; when bit
0x02 of the first byte is set, inflate the remainder and pass the result
through a UTF-8 string (read_to_string fails on non-UTF-8 data, and
String::as_bytes re-emits the bytes of what it accepted); otherwise return
the remainder unchanged.  The zlib inflater (flate2) is an external
collaborator and is passed as a function. -/
def unpack_data (inflate : List Nat → Option (List Nat)) (data : List Nat) :
    Option (List Nat) :=
  match data with
  | [] => none
  | data_type :: rest =>
    if 2 &&& data_type > 0 then
      match inflate rest with
      | none => none
      | some decompressed =>
        match utf8DecodeQ decompressed with
        | some s => some (utf8EncodeChars s)
        | none => none
    else some rest

/-- printable (src/binary/node.rs): the UTF-8 decoding of the bytes when it
succeeds and every character satisfies the alphanumeric predicate, otherwise
the empty string.  char::is_alphanumeric is the Unicode predicate of the
Rust standard library, external to the repository, and is passed as a
function. -/
def printable (alnum : Char → Bool) (data : List Nat) : List Char :=
  match utf8DecodeQ data with
  | some s => if s.all alnum then s else []
  | none => []

/-- The literal constants Node::INDENT_XML and Node::MAX_BYTES_TO_PRINT_AS_HEX. -/
def INDENT_XML : Bool := false

def MAX_BYTES_TO_PRINT_AS_HEX : Nat := 128

/-- The replace("\n", "\\n") applied to rendered content. -/
def replaceNl (s : List Char) : List Char :=
  s.flatMap fun c => if c = '\n' then ['\\', 'n'] else [c]

/-- The 80-character line chunking of the hex branch of content_string. -/
def chunks80 (s : List Char) : List (List Char) :=
  if s.isEmpty then []
  else if s.length ≤ 80 then [s]
  else s.take 80 :: chunks80 (s.drop 80)
termination_by s.length
decreasing_by
  simp only [List.length_drop]
  omega

/-- Node::attribute_string: render each pair as key="value", sort, join with
spaces (String sort is byte-lexicographic, which agrees with char-wise
code-point order under UTF-8). -/
def lexLe : List Char → List Char → Bool
  | [], _ => true
  | _ :: _, [] => false
  | a :: as_, b :: bs =>
    if a.toNat < b.toNat then true
    else if b.toNat < a.toNat then false
    else lexLe as_ bs

def insertSorted (x : List Char) : List (List Char) → List (List Char)
  | [] => [x]
  | y :: ys => if lexLe x y then x :: y :: ys else y :: insertSorted x ys

def sortStrings (l : List (List Char)) : List (List Char) :=
  l.foldr insertSorted []

def attribute_string (n : Node) : List Char :=
  if n.attrs.isEmpty then []
  else
    let string_attrs := n.attrs.map fun kv =>
      kv.fst ++ '=' :: Char.ofNat 34 :: kv.snd.to_string ++ [Char.ofNat 34]
    List.intercalate [' '] (sortStrings string_attrs)

/- Node::xml_string and Node::content_string, mutually recursive through
child nodes; the fuel bounds the recursion depth and is consumed at each
entry of either function. -/
mutual

def xml_string (alnum : Char → Bool) : Nat → Node → List Char
  | 0, _ => []
  | fuel + 1, n =>
    let attributes := attribute_string n
    let content := content_string alnum fuel n
    if content.isEmpty then
      '<' :: n.tag ++ ' ' :: attributes ++ strL " />"
    else
      let new_line := if content.length = 1 ∨ ¬INDENT_XML then ([] : List Char) else ['\n']
      '<' :: n.tag ++ ' ' :: attributes ++ '>' :: new_line
        ++ List.intercalate new_line content ++ new_line
        ++ '<' :: '/' :: n.tag ++ ['>']

def content_string (alnum : Char → Bool) : Nat → Node → List (List Char)
  | 0, _ => []
  | fuel + 1, n =>
    let content_vec : List (List Char) :=
      match n.content with
      | NodeContentType.None => []
      | NodeContentType.ListOfNodes nodes =>
        nodes.foldl (fun acc node => acc ++ splitOnChar '\n' (xml_string alnum fuel node)) []
      | NodeContentType.ByteArray bytes =>
        let content := printable alnum bytes
        if ¬content.isEmpty then
          if INDENT_XML then splitOnChar '\n' content else [replaceNl content]
        else if content.length > MAX_BYTES_TO_PRINT_AS_HEX then
          [strL "<!-- " ++ natDec content.length ++ strL " bytes -->"]
        else if ¬INDENT_XML then
          [hexEncode (utf8EncodeChars content)]
        else
          chunks80 (hexEncode (utf8EncodeChars content))
      | c =>
        let content := c.other_types_to_string
        if INDENT_XML then splitOnChar '\n' content else [replaceNl content]
    if content_vec.length > 1 ∧ INDENT_XML then
      content_vec.map (fun s => ' ' :: s)
    else content_vec

end

/-- Recursion principle consuming a character list two elements at a time,
matching the shape of the packing loop. -/
def twoStepInduction {motive : List Char → Sort _}
    (h0 : motive []) (h1 : ∀ c, motive [c])
    (h2 : ∀ c1 c2 rest, motive rest → motive (c1 :: c2 :: rest)) :
    (s : List Char) → motive s
  | [] => h0
  | [c] => h1 c
  | c1 :: c2 :: rest => h2 c1 c2 rest (twoStepInduction h0 h1 h2 rest)

/-- Mask by an all-ones pattern is reduction mod a power of two. -/
theorem land_two_pow_sub_one_eq_mod (x n : Nat) : x &&& (2 ^ n - 1) = x % 2 ^ n := by
  apply Nat.eq_of_testBit_eq
  intro i
  rw [Nat.testBit_and, Nat.testBit_two_pow_sub_one, Nat.testBit_mod_two_pow, Bool.and_comm]

theorem land_255_eq_mod (x : Nat) : x &&& 255 = x % 256 := by
  have h := land_two_pow_sub_one_eq_mod x 8
  norm_num at h
  exact h

theorem land_15_eq_mod (x : Nat) : x &&& 15 = x % 16 := by
  have h := land_two_pow_sub_one_eq_mod x 4
  norm_num at h
  exact h

theorem splitOnChar_sep_free (sep : Char) (l : List Char) (h : ∀ c ∈ l, c ≠ sep) :
    splitOnChar sep l = [l] := by
  induction l with
  | nil => rfl
  | cons c rest ih =>
    have hc : c ≠ sep := h c (List.mem_cons_self c rest)
    have hr : splitOnChar sep rest = [rest] := ih fun x hx => h x (List.mem_cons_of_mem c hx)
    simp [splitOnChar, hr, hc]

theorem splitOnChar_append (sep : Char) (l r : List Char) (h : ∀ c ∈ l, c ≠ sep) :
    splitOnChar sep (l ++ sep :: r) = l :: splitOnChar sep r := by
  induction l with
  | nil => simp [splitOnChar]
  | cons c rest ih =>
    have hc : c ≠ sep := h c (List.mem_cons_self c rest)
    have hr := ih fun x hx => h x (List.mem_cons_of_mem c hx)
    simp only [List.cons_append, splitOnChar, List.append_eq, hr, hc, if_neg, ite_false]

theorem any_of_findIdx? (p : Char → Bool) (l : List Char) (i : Nat)
    (h : l.findIdx? p = some i) : l.any p = true := by
  induction l generalizing i with
  | nil => simp at h
  | cons c rest ih =>
    have hc : List.findIdx? p (c :: rest) = if p c then some 0
        else (List.findIdx? p rest).map (· + 1) := by
      simp [List.findIdx?_cons]
    rw [hc] at h
    by_cases hp : p c
    · simp [hp]
    · simp only [hp, Bool.false_eq_true, if_false] at h
      rcases Option.map_eq_some'.mp h with ⟨j, hj, _⟩
      simp [ih j hj]

theorem pair_pack_bits :
    ∀ x < 16, ∀ y < 16,
      (((x <<< 4) ||| y) &&& 240) >>> 4 = x ∧ ((x <<< 4) ||| y) &&& 15 = y := by
  decide

theorem len_byte_bits_even : ∀ x < 128, x &&& 127 = x ∧ x >>> 7 = 0 := by decide

theorem len_byte_bits_odd : ∀ x < 128, (x ||| 128) &&& 127 = x ∧ (x ||| 128) >>> 7 = 1 := by
  decide

theorem utf8DecodeQ_ascii (bs : List Nat) (h : ∀ b ∈ bs, b < 128) :
    utf8DecodeQ bs = some (bs.map Char.ofNat) := by
  induction bs with
  | nil => rfl
  | cons b rest ih =>
    have hb : b < 128 := h b (by simp)
    have hr := ih fun x hx => h x (by simp [hx])
    rcases rest with _ | ⟨b1, _ | ⟨b2, _ | ⟨b3, r⟩⟩⟩
    · rw [utf8DecodeQ.eq_2, if_pos hb]
      rfl
    · rw [utf8DecodeQ.eq_3, if_pos hb, hr]
      rfl
    · rw [utf8DecodeQ.eq_4, if_pos hb, hr]
      rfl
    · rw [utf8DecodeQ.eq_5, if_pos hb, hr]
      rfl

theorem map_ofNat_toNat (s : List Char) : (s.map Char.toNat).map Char.ofNat = s := by
  induction s with
  | nil => rfl
  | cons c cs ih => simp [Char.ofNat_toNat, ih]

theorem packPairs_readPackedLoop (tag : Nat) (packer : Nat → Option Nat) (pad : Nat)
    (hpadpack : packer 0 = some 15)
    (hpadunp : BinaryDecoder.unpack_byte tag 15 = some pad)
    (s : List Char)
    (hchar : ∀ c ∈ s, ∃ n, n < 16 ∧ packer (c.toNat % 256) = some n
        ∧ BinaryDecoder.unpack_byte tag n = some c.toNat) :
    ∃ payload, BinaryEncoder.packPairs packer s = some payload ∧
      payload.length = (s.length + 1) / 2 ∧
      ∀ rest, BinaryDecoder.readPackedLoop tag payload.length (payload ++ rest)
        = some ((if s.length % 2 = 0 then s.map Char.toNat
                 else s.map Char.toNat ++ [pad]), rest) := by
  induction s using twoStepInduction with
  | h0 =>
    refine ⟨[], rfl, rfl, fun rest => ?_⟩
    simp [BinaryDecoder.readPackedLoop]
  | h1 c =>
    obtain ⟨n, hn16, hpack, hunp⟩ := hchar c (List.mem_cons_self c [])
    have hbits := pair_pack_bits n hn16 15 (by norm_num)
    refine ⟨[(n <<< 4) ||| 15], ?_, by norm_num, fun rest => ?_⟩
    · simp [BinaryEncoder.packPairs, BinaryEncoder.pack_byte_pair, hpack, hpadpack]
    · simp only [List.cons_append, List.nil_append, BinaryDecoder.readPackedLoop,
        BinaryDecoder.read_byte, hbits.1, hbits.2, hunp, hpadunp]
      rfl
  | h2 c1 c2 rest ih =>
    obtain ⟨n1, hn1, hpack1, hunp1⟩ := hchar c1 (by simp)
    obtain ⟨n2, hn2, hpack2, hunp2⟩ := hchar c2 (by simp)
    obtain ⟨payload, hpp, hlen, hloop⟩ := ih (fun c hc => hchar c (by simp [hc]))
    have hbits := pair_pack_bits n1 hn1 n2 hn2
    refine ⟨((n1 <<< 4) ||| n2) :: payload, ?_, ?_, fun r2 => ?_⟩
    · simp [BinaryEncoder.packPairs, BinaryEncoder.pack_byte_pair, hpack1, hpack2, hpp]
    · simp only [List.length_cons, hlen, List.length_cons]
      omega
    · simp only [List.length_cons, List.cons_append, BinaryDecoder.readPackedLoop,
        BinaryDecoder.read_byte, hbits.1, hbits.2, hunp1, hunp2, hloop r2]
      have he2 : (rest.length + 1 + 1) % 2 = rest.length % 2 := by omega
      simp only [List.length_cons, he2]
      by_cases he : rest.length % 2 = 0 <;> simp [he]

theorem write_packed_roundtrip (tag : Nat) (packer : Nat → Option Nat) (pad : Nat)
    (hsel : (if tag = NIBBLE8 then some BinaryEncoder.pack_nibble
             else if tag = HEX8 then some BinaryEncoder.pack_hex
             else none : Option (Nat → Option Nat)) = some packer)
    (hpadpack : packer 0 = some 15)
    (hpadunp : BinaryDecoder.unpack_byte tag 15 = some pad)
    (hpadlt : pad < 128)
    (s : List Char) (hlen : s.length ≤ PACKED_MAX)
    (hchar : ∀ c ∈ s, ∃ n, n < 16 ∧ packer (c.toNat % 256) = some n
        ∧ BinaryDecoder.unpack_byte tag n = some c.toNat)
    (hascii : ∀ c ∈ s, c.toNat < 128) :
    ∃ payload,
      BinaryEncoder.write_packed_bytes s tag
        = some (tag :: (if s.length % 2 != 0 then ((s.length + 1) / 2) ||| 128
                        else (s.length + 1) / 2) :: payload) ∧
      payload.length = (s.length + 1) / 2 ∧
      ∀ rest, BinaryDecoder.read_packed_8 tag
          ((if s.length % 2 != 0 then ((s.length + 1) / 2) ||| 128
            else (s.length + 1) / 2) :: payload ++ rest)
        = some (s, rest) := by
  obtain ⟨payload, hpp, hplen, hloop⟩ :=
    packPairs_readPackedLoop tag packer pad hpadpack hpadunp s hchar
  have hhalf : (s.length + 1) / 2 < 128 := by
    have : s.length ≤ 254 := hlen
    omega
  have hnlen : ¬s.length > PACKED_MAX := by omega
  have hcodes : ∀ b ∈ (if s.length % 2 = 0 then s.map Char.toNat
      else s.map Char.toNat ++ [pad]), b < 128 := by
    intro b hb
    by_cases he : s.length % 2 = 0
    · rw [if_pos he] at hb
      obtain ⟨c, hc, rfl⟩ := List.mem_map.mp hb
      exact hascii c hc
    · rw [if_neg he] at hb
      rcases List.mem_append.mp hb with hb1 | hb2
      · obtain ⟨c, hc, rfl⟩ := List.mem_map.mp hb1
        exact hascii c hc
      · rw [List.mem_singleton] at hb2
        subst hb2
        exact hpadlt
  refine ⟨payload, ?_, hplen, fun rest => ?_⟩
  · unfold BinaryEncoder.write_packed_bytes
    rw [if_neg hnlen]
    simp only [hsel, hpp]
  · by_cases he : s.length % 2 = 0
    · have hbne : ((s.length % 2 : Nat) != 0) = false := by simp [he]
      have hbits := len_byte_bits_even ((s.length + 1) / 2) hhalf
      simp only [hbne, Bool.false_eq_true, if_false]
      have hstep : BinaryDecoder.read_packed_8 tag ((s.length + 1) / 2 :: (payload ++ rest))
          = (match BinaryDecoder.readPackedLoop tag (((s.length + 1) / 2) &&& 127)
                (payload ++ rest) with
             | none => none
             | some (bytes, r2) =>
               match utf8DecodeQ bytes with
               | none => none
               | some ret =>
                 some ((if ((s.length + 1) / 2) >>> 7 != 0 then ret.dropLast else ret), r2)) :=
        rfl
      rw [List.cons_append, hstep, hbits.1, hbits.2, ← hplen]
      have hl2 := hloop rest
      rw [if_pos he] at hl2
      rw [hl2]
      have hcodes2 : ∀ b ∈ s.map Char.toNat, b < 128 := by
        rw [if_pos he] at hcodes
        exact hcodes
      simp only [utf8DecodeQ_ascii _ hcodes2, map_ofNat_toNat]
      rfl
    · have ho : s.length % 2 = 1 := by omega
      have hbne : ((s.length % 2 : Nat) != 0) = true := by simp [ho]
      have hbits := len_byte_bits_odd ((s.length + 1) / 2) hhalf
      simp only [hbne, if_true]
      have hstep : BinaryDecoder.read_packed_8 tag
            ((((s.length + 1) / 2) ||| 128) :: (payload ++ rest))
          = (match BinaryDecoder.readPackedLoop tag ((((s.length + 1) / 2) ||| 128) &&& 127)
                (payload ++ rest) with
             | none => none
             | some (bytes, r2) =>
               match utf8DecodeQ bytes with
               | none => none
               | some ret =>
                 some ((if (((s.length + 1) / 2) ||| 128) >>> 7 != 0 then ret.dropLast else ret),
                       r2)) :=
        rfl
      rw [List.cons_append, hstep, hbits.1, hbits.2, ← hplen]
      have hl2 := hloop rest
      rw [if_neg he] at hl2
      rw [hl2]
      have hcodes2 : ∀ b ∈ s.map Char.toNat ++ [pad], b < 128 := by
        rw [if_neg he] at hcodes
        exact hcodes
      simp only [utf8DecodeQ_ascii _ hcodes2, List.map_append, map_ofNat_toNat]
      simp [List.dropLast_concat]

theorem unpack_byte_nibble (v : Nat) :
    BinaryDecoder.unpack_byte NIBBLE8 v = BinaryDecoder.unpack_nibble v := rfl

theorem unpack_byte_hex (v : Nat) :
    BinaryDecoder.unpack_byte HEX8 v = BinaryDecoder.unpack_hex v := rfl

theorem nibble_hchar (c : Char)
    (hc : (48 ≤ c.toNat ∧ c.toNat ≤ 57) ∨ c.toNat = 45 ∨ c.toNat = 46) :
    ∃ n, n < 16 ∧ BinaryEncoder.pack_nibble (c.toNat % 256) = some n
      ∧ BinaryDecoder.unpack_byte NIBBLE8 n = some c.toNat := by
  have hlt : c.toNat < 256 := by rcases hc with ⟨h1, h2⟩ | h | h <;> omega
  have hm : c.toNat % 256 = c.toNat := Nat.mod_eq_of_lt hlt
  rw [hm]
  rcases hc with ⟨h1, h2⟩ | h45 | h46
  · refine ⟨c.toNat - 48, by omega, ?_, ?_⟩
    · unfold BinaryEncoder.pack_nibble
      rw [if_neg (by omega), if_neg (by omega), if_neg (by omega), if_pos ⟨h1, h2⟩]
    · rw [unpack_byte_nibble]
      unfold BinaryDecoder.unpack_nibble
      rw [if_pos (by omega)]
      congr 1
      omega
  · refine ⟨10, by norm_num, ?_, ?_⟩
    · unfold BinaryEncoder.pack_nibble
      rw [if_pos h45]
    · rw [unpack_byte_nibble]
      unfold BinaryDecoder.unpack_nibble
      rw [if_neg (by omega), if_pos rfl, h45]
  · refine ⟨11, by norm_num, ?_, ?_⟩
    · unfold BinaryEncoder.pack_nibble
      rw [if_neg (by omega), if_pos h46]
    · rw [unpack_byte_nibble]
      unfold BinaryDecoder.unpack_nibble
      rw [if_neg (by omega), if_neg (by omega), if_pos rfl, h46]

theorem hex_hchar (c : Char)
    (hc : (48 ≤ c.toNat ∧ c.toNat ≤ 57) ∨ (65 ≤ c.toNat ∧ c.toNat ≤ 70)) :
    ∃ n, n < 16 ∧ BinaryEncoder.pack_hex (c.toNat % 256) = some n
      ∧ BinaryDecoder.unpack_byte HEX8 n = some c.toNat := by
  have hlt : c.toNat < 256 := by rcases hc with ⟨h1, h2⟩ | ⟨h1, h2⟩ <;> omega
  have hm : c.toNat % 256 = c.toNat := Nat.mod_eq_of_lt hlt
  rw [hm]
  rcases hc with ⟨h1, h2⟩ | ⟨h1, h2⟩
  · refine ⟨c.toNat - 48, by omega, ?_, ?_⟩
    · unfold BinaryEncoder.pack_hex
      rw [if_pos ⟨h1, h2⟩]
    · rw [unpack_byte_hex]
      unfold BinaryDecoder.unpack_hex
      rw [if_pos (by omega)]
      congr 1
      omega
  · refine ⟨10 + c.toNat - 65, by omega, ?_, ?_⟩
    · unfold BinaryEncoder.pack_hex
      rw [if_neg (by omega), if_pos ⟨h1, h2⟩]
    · rw [unpack_byte_hex]
      unfold BinaryDecoder.unpack_hex
      rw [if_neg (by omega), if_pos (by omega)]
      congr 1
      omega

theorem validate_nibble_spec (s : List Char) (h : BinaryEncoder.validate_nibble s = true) :
    s.length ≤ PACKED_MAX
      ∧ ∀ c ∈ s, (48 ≤ c.toNat ∧ c.toNat ≤ 57) ∨ c.toNat = 45 ∨ c.toNat = 46 := by
  unfold BinaryEncoder.validate_nibble at h
  by_cases hl : s.length > PACKED_MAX
  · rw [if_pos hl] at h
    exact absurd h (by simp)
  · rw [if_neg hl] at h
    refine ⟨by omega, fun c hc => ?_⟩
    have hp := List.all_eq_true.mp h c hc
    simp only [Bool.or_eq_true, Bool.and_eq_true, decide_eq_true_eq, beq_iff_eq] at hp
    tauto

theorem validate_hex_spec (s : List Char) (h : BinaryEncoder.validate_hex s = true) :
    s.length ≤ PACKED_MAX
      ∧ ∀ c ∈ s, (48 ≤ c.toNat ∧ c.toNat ≤ 57) ∨ (65 ≤ c.toNat ∧ c.toNat ≤ 70)
          ∨ (97 ≤ c.toNat ∧ c.toNat ≤ 102) := by
  unfold BinaryEncoder.validate_hex at h
  by_cases hl : s.length > PACKED_MAX
  · rw [if_pos hl] at h
    exact absurd h (by simp)
  · rw [if_neg hl] at h
    refine ⟨by omega, fun c hc => ?_⟩
    have hp := List.all_eq_true.mp h c hc
    simp only [Bool.or_eq_true, Bool.and_eq_true, decide_eq_true_eq, beq_iff_eq] at hp
    tauto

/-- Claim C1: the pair-form branch of write_jid is claimed to emit the
JID_PAIR tag, the user (or LIST_EMPTY when the user is empty), then the
SERVER, so that read_jid_pair recovers the original JID.  The source emits
the user twice instead: encoding the pair JID alice at g.us produces
JID_PAIR followed by two copies of the raw string alice, and read_jid_pair
on those bytes yields a JID whose server is alice, not g.us. -/
theorem c1_write_jid_pair_writes_user_twice :
    BinaryEncoder.write_jid noTokens (JID.new (strL "alice") (strL "g.us"))
      = some [250, 252, 5, 97, 108, 105, 99, 101, 252, 5, 97, 108, 105, 99, 101] ∧
    BinaryDecoder.read_jid_pair noTokens 5
        [252, 5, 97, 108, 105, 99, 101, 252, 5, 97, 108, 105, 99, 101]
      = some (JID.new (strL "alice") (strL "alice"), []) ∧
    strL "alice" ≠ strL "g.us" :=
  ⟨rfl, rfl, by decide⟩

/-- Claim C2: the encode-decode round trip is claimed to hold also when some
attribute values are the empty string.  It does not: for the node with tag
iq, one attribute k mapped to the empty string and no content, write_node
announces a list of size 3 (counting the attribute) but write_attributes
skips the empty-valued pair, and read_node then fails attempting to read
the missing attribute past the end of the buffer. -/
theorem c2_roundtrip_fails_on_empty_attr :
    BinaryEncoder.write_node noTokens 5
        (Node.mk (strL "iq") [(strL "k", AttributeTypes.String [])] NodeContentType.None)
      = some [248, 3, 252, 2, 105, 113] ∧
    BinaryDecoder.read_node noTokens 9 [248, 3, 252, 2, 105, 113] = none :=
  ⟨rfl, rfl⟩

/-- Claim C3 counterexample: the claim says every length below 2^31 is
encoded, with BINARY32 for the range up to 2^31 - 1; the source compares
`(length as i32) < i32::MAX` strictly, so at exactly 2^31 - 1 it panics
instead of emitting BINARY32. -/
theorem c3_maxlen_counterexample :
    BinaryEncoder.write_byte_length (2 ^ 31 - 1) = none := by decide

/-- Claim C3 as amended: write_byte_length chooses BINARY8 below 256,
BINARY20 below 2^20, and BINARY32 from 2^20 up to (but excluding) 2^31 - 1;
it fails at exactly 2^31 - 1.  The boundary lengths 255, 256, 2^20 - 1 and
2^20 are encoded with the smallest class as the claim tabulates, while
2^31 - 1 fails. -/
theorem c3_write_byte_length_classes (L : Nat) (h : L < 2 ^ 31 - 1) :
    BinaryEncoder.write_byte_length L =
      (if L < 256 then some [BINARY8, L]
       else if L < 2 ^ 20 then some (BINARY20 :: BinaryEncoder.push_i_20 L)
       else some (BINARY32 :: BinaryEncoder.push_i_32 L)) ∧
    BinaryEncoder.write_byte_length 255 = some [BINARY8, 255] ∧
    BinaryEncoder.write_byte_length 256 = some [BINARY20, 0, 1, 0] ∧
    BinaryEncoder.write_byte_length (2 ^ 20 - 1) = some [BINARY20, 15, 255, 255] ∧
    BinaryEncoder.write_byte_length (2 ^ 20) = some [BINARY32, 0, 16, 0, 0] ∧
    BinaryEncoder.write_byte_length (2 ^ 31 - 1) = none := by
  refine ⟨?_, by decide, by decide, by decide, by decide, by decide⟩
  by_cases h1 : L < 256
  · simp [BinaryEncoder.write_byte_length, h1, BinaryEncoder.push_i_8,
      land_255_eq_mod, Nat.mod_eq_of_lt h1]
  by_cases h2 : L < 2 ^ 20
  · have h2n : L < 1048576 := by omega
    simp [BinaryEncoder.write_byte_length, h1, h2n]
  · have h2n : ¬L < 1048576 := by omega
    have hmod : L % 2 ^ 32 = L := Nat.mod_eq_of_lt (by omega)
    have hmodn : L % 4294967296 = L := by omega
    have hcast : BinaryEncoder.i32cast L < 2147483647 := by
      unfold BinaryEncoder.i32cast
      simp only [hmod]
      have hlt : L < 2 ^ 31 := by omega
      simp only [hlt, if_pos]
      exact_mod_cast (by omega : L < 2147483647)
    simp [BinaryEncoder.write_byte_length, h1, h2n, hcast, hmod, hmodn]

theorem c3_write_byte_length_classes_witness :
    2 ^ 20 < 2 ^ 31 - 1 ∧
    (BinaryEncoder.write_byte_length (2 ^ 20) =
      (if 2 ^ 20 < 256 then some [BINARY8, 2 ^ 20]
       else if 2 ^ 20 < 2 ^ 20 then some (BINARY20 :: BinaryEncoder.push_i_20 (2 ^ 20))
       else some (BINARY32 :: BinaryEncoder.push_i_32 (2 ^ 20))) ∧
     BinaryEncoder.write_byte_length 255 = some [BINARY8, 255] ∧
     BinaryEncoder.write_byte_length 256 = some [BINARY20, 0, 1, 0] ∧
     BinaryEncoder.write_byte_length (2 ^ 20 - 1) = some [BINARY20, 15, 255, 255] ∧
     BinaryEncoder.write_byte_length (2 ^ 20) = some [BINARY32, 0, 16, 0, 0] ∧
     BinaryEncoder.write_byte_length (2 ^ 31 - 1) = none) :=
  ⟨by norm_num, c3_write_byte_length_classes (2 ^ 20) (by norm_num)⟩

/-- Claim C4: unpack_data on a zero first byte returns the remainder
unchanged and fails on the empty buffer, as claimed; but on a compressed
envelope the source routes the inflated bytes through read_to_string, so a
decompression result that is not valid UTF-8 (here the single byte 0xFF)
makes unpack_data fail instead of returning the bytes, refuting the
arbitrary-byte-content part of the claim. -/
theorem c4_unpack_data_eval :
    (∀ (inflate : List Nat → Option (List Nat)) (rest : List Nat),
        unpack_data inflate (0 :: rest) = some rest) ∧
    (∀ inflate : List Nat → Option (List Nat), unpack_data inflate [] = none) ∧
    unpack_data (fun _ => some [255]) [2, 7] = none :=
  ⟨fun _ _ => rfl, fun _ => rfl, by decide⟩

/-- Claim C6 counterexample: the claim places the top 4 bits of the value in
the HIGH nibble of the first emitted byte.  At v = 0xF0000 the first byte is
0x0F: its high nibble is 0 while the top 4 bits of v are 0xF, so the top
bits in fact occupy the LOW nibble. -/
theorem c6_high_nibble_counterexample :
    BinaryEncoder.push_i_20 983040 = [15, 0, 0] ∧ ¬((15 : Nat) >>> 4 = 983040 >>> 16) := by
  decide

/-- Claim C6 as amended: for v below 2^20, push_i_20 emits three bytes whose
first byte IS the top 4 bits of v (a value below 16, i.e. held in the low
nibble of byte 0), followed by the remaining 16 bits big-endian; read_i_20
masks the first byte with 0x0F, shifts and adds, and recovers v exactly. -/
theorem c6_i20_roundtrip (v : Nat) (h : v < 2 ^ 20) :
    BinaryEncoder.push_i_20 v = [v >>> 16, (v >>> 8) % 256, v % 256] ∧
    v >>> 16 < 16 ∧
    ∀ rest, BinaryDecoder.read_i_20 (BinaryEncoder.push_i_20 v ++ rest) = some (v, rest) := by
  have h16 : v >>> 16 = v / 65536 := by
    rw [Nat.shiftRight_eq_div_pow]
  have h8 : v >>> 8 = v / 256 := by
    rw [Nat.shiftRight_eq_div_pow]
  have hb0 : v / 65536 < 16 := by omega
  have e1 : BinaryEncoder.push_i_20 v = [v >>> 16, (v >>> 8) % 256, v % 256] := by
    unfold BinaryEncoder.push_i_20
    rw [land_15_eq_mod, land_255_eq_mod, land_255_eq_mod, h16]
    rw [Nat.mod_eq_of_lt hb0]
  refine ⟨e1, by omega, fun rest => ?_⟩
  rw [e1]
  unfold BinaryDecoder.read_i_20
  have hlen : ¬([v >>> 16, (v >>> 8) % 256, v % 256] ++ rest).length < 3 := by
    simp
  rw [if_neg hlen]
  simp only [List.cons_append, List.nil_append, List.getD_cons_zero, List.getD_cons_succ,
    List.drop_succ_cons, List.drop_zero]
  have key : ((v >>> 16) &&& 15) <<< 16 + ((v >>> 8) % 256) <<< 8 + v % 256 = v := by
    rw [land_15_eq_mod, h16, h8, Nat.shiftLeft_eq, Nat.shiftLeft_eq, Nat.mod_eq_of_lt hb0]
    have p16 : (2 : Nat) ^ 16 = 65536 := by norm_num
    have p8 : (2 : Nat) ^ 8 = 256 := by norm_num
    rw [p16, p8]
    omega
  rw [key]

theorem c6_i20_roundtrip_witness :
    999999 < 2 ^ 20 ∧
    (BinaryEncoder.push_i_20 999999 = [999999 >>> 16, (999999 >>> 8) % 256, 999999 % 256] ∧
     999999 >>> 16 < 16 ∧
     ∀ rest, BinaryDecoder.read_i_20 (BinaryEncoder.push_i_20 999999 ++ rest)
        = some (999999, rest)) :=
  ⟨by norm_num, c6_i20_roundtrip 999999 (by norm_num)⟩

/-- Claim C9: for byte-array content that is not entirely alphanumeric, the
pretty-printer is claimed to render the lowercase hex encoding of the
bytes.  The source instead hex-encodes the (empty) printable string: on the
single non-UTF-8 byte 0xFF, content_string renders the empty string for any
alphanumeric predicate, while the hex encoding of the bytes would be the
string ff. -/
theorem c9_content_string_eval :
    (∀ alnum : Char → Bool,
        content_string alnum 1 (Node.mk (strL "x") [] (NodeContentType.ByteArray [255]))
          = [[]]) ∧
    hexEncode [255] = strL "ff" :=
  ⟨fun _ => rfl, by decide⟩

/-- Claim C10: is_empty returns true exactly when the server string is
non-empty (the body is `server.len() != 0`), and in particular the shared
empty JID sentinel reports is_empty = false. -/
theorem c10_is_empty :
    (∀ j : JID, JID.is_empty j = true ↔ j.server ≠ []) ∧
    JID.is_empty JID.EMPTY_JID = false := by
  refine ⟨fun j => ?_, by decide⟩
  simp [JID.is_empty, bne_iff_ne, Ne, List.length_eq_zero]

/-- Claim C7: the boolean getter accepts exactly the six true literals and
the six false literals, any other present string accumulating one parse
error; and for every typed getter, the optional variant on a missing
attribute returns none with no error while the strict variant returns none
with exactly one accumulated error. -/
theorem c7_attr_getters :
    (∀ s : List Char,
      ((AttrUtility.get_bool [(strL "k", AttributeTypes.String s)] (strL "k") true).fst
          = some true
        ↔ s ∈ [strL "1", strL "t", strL "T", strL "true", strL "TRUE", strL "True"]) ∧
      ((AttrUtility.get_bool [(strL "k", AttributeTypes.String s)] (strL "k") true).fst
          = some false
        ↔ s ∈ [strL "0", strL "f", strL "F", strL "false", strL "FALSE", strL "False"]) ∧
      ((AttrUtility.get_bool [(strL "k", AttributeTypes.String s)] (strL "k") true).snd
        = if s ∈ [strL "1", strL "t", strL "T", strL "true", strL "TRUE", strL "True"]
            ∨ s ∈ [strL "0", strL "f", strL "F", strL "false", strL "FALSE", strL "False"]
          then [] else [AttrErr.parseBool (strL "k")])) ∧
    AttrUtility.optional_jid [] (strL "k") = (none, []) ∧
    AttrUtility.jid [] (strL "k") = (none, [AttrErr.missingJid (strL "k")]) ∧
    AttrUtility.optional_string [] (strL "k") = (none, []) ∧
    AttrUtility.string [] (strL "k") = (none, [AttrErr.missingString (strL "k")]) ∧
    AttrUtility.get_i64 [] (strL "k") false = (none, []) ∧
    AttrUtility.i64 [] (strL "k") = (none, [AttrErr.missingString (strL "k")]) ∧
    AttrUtility.get_u64 [] (strL "k") false = (none, []) ∧
    AttrUtility.u64 [] (strL "k") = (none, [AttrErr.missingString (strL "k")]) ∧
    AttrUtility.optional_bool [] (strL "k") = (none, []) ∧
    AttrUtility.bool [] (strL "k") = (none, [AttrErr.missingString (strL "k")]) ∧
    AttrUtility.optional_unix_time [] (strL "k") = (none, []) ∧
    AttrUtility.unix_time [] (strL "k") = (none, [AttrErr.missingString (strL "k")]) ∧
    AttrUtility.optional_i32 [] (strL "k") = (none, []) ∧
    AttrUtility.i32 [] (strL "k") = (none, [AttrErr.missingString (strL "k")]) := by
  refine ⟨fun s => ?_, by decide, by decide, by decide, by decide, by decide, by decide,
    by decide, by decide, by decide, by decide, by decide, by decide, by decide, by decide⟩
  have hl : AttrUtility.get_string [(strL "k", AttributeTypes.String s)] (strL "k") true
      = (some s, []) := by
    simp [AttrUtility.get_string, AttrUtility.lookup, List.find?]
  have memT : (s ∈ [strL "1", strL "t", strL "T", strL "true", strL "TRUE", strL "True"])
      ↔ (s = strL "1" ∨ s = strL "t" ∨ s = strL "T"
          ∨ s = strL "true" ∨ s = strL "TRUE" ∨ s = strL "True") := by
    simp
  have memF : (s ∈ [strL "0", strL "f", strL "F", strL "false", strL "FALSE", strL "False"])
      ↔ (s = strL "0" ∨ s = strL "f" ∨ s = strL "F"
          ∨ s = strL "false" ∨ s = strL "FALSE" ∨ s = strL "False") := by
    simp
  have disj : ¬((s = strL "1" ∨ s = strL "t" ∨ s = strL "T"
          ∨ s = strL "true" ∨ s = strL "TRUE" ∨ s = strL "True")
      ∧ (s = strL "0" ∨ s = strL "f" ∨ s = strL "F"
          ∨ s = strL "false" ∨ s = strL "FALSE" ∨ s = strL "False")) := by
    rintro ⟨rfl | rfl | rfl | rfl | rfl | rfl, h⟩ <;> revert h <;> decide
  refine ⟨?_, ?_, ?_⟩
  · rw [memT]
    simp only [AttrUtility.get_bool, hl]
    split_ifs with hT hF
    · exact iff_of_true rfl hT
    · exact iff_of_false (by simp) hT
    · exact iff_of_false (by simp) hT
  · rw [memF]
    simp only [AttrUtility.get_bool, hl]
    split_ifs with hT hF
    · exact iff_of_false (by simp) (fun hF => disj ⟨hT, hF⟩)
    · exact iff_of_true rfl hF
    · exact iff_of_false (by simp) hF
  · by_cases h1 : s = strL "1" ∨ s = strL "t" ∨ s = strL "T"
        ∨ s = strL "true" ∨ s = strL "TRUE" ∨ s = strL "True"
    · simp [AttrUtility.get_bool, hl, h1, memT, memF]
    · by_cases h2 : s = strL "0" ∨ s = strL "f" ∨ s = strL "F"
          ∨ s = strL "false" ∨ s = strL "FALSE" ∨ s = strL "False"
      · simp [AttrUtility.get_bool, hl, h1, h2, memT, memF]
      · simp [AttrUtility.get_bool, hl, h1, h2, memT, memF]

/-- Route taken by FromStr when the left side holds both separators and the
right side is the default user server: the result is parse_ad_jid of the
left side. -/
theorem from_str_ad_route (l2 : List Char) (dj cj : Nat)
    (hdj : l2.findIdx? (fun c => c == '.') = some dj)
    (hcj : l2.findIdx? (fun c => c == ':') = some cj)
    (hat : ∀ c ∈ l2, c ≠ '@') :
    JID.from_str (l2 ++ '@' :: DEFAULT_USER_SERVER) = parse_ad_jid l2 := by
  have hsrv : ∀ c ∈ DEFAULT_USER_SERVER, c ≠ '@' := by decide
  have hsplit : splitOnChar '@' (l2 ++ '@' :: DEFAULT_USER_SERVER)
      = l2 :: [DEFAULT_USER_SERVER] := by
    rw [splitOnChar_append '@' l2 DEFAULT_USER_SERVER hat,
        splitOnChar_sep_free '@' DEFAULT_USER_SERVER hsrv]
  have hcolon : l2.any (fun c => c == ':') = true := any_of_findIdx? _ _ _ hcj
  have hdot : l2.any (fun c => c == '.') = true := any_of_findIdx? _ _ _ hdj
  unfold JID.from_str
  rw [hsplit]
  simp only [hcolon, hdot, beq_self_eq_true, Bool.and_true, Bool.true_and, if_pos]

/-- Claim C8: parsing the canonical AD string yields user 447911234567,
agent 0, device 2 on the default user server, and to_string maps that JID
back to the same string; in general, a left side whose first dot precedes
its first colon combined with the default user server parses with the agent
byte between dot and colon and the device byte after the colon.  The
failure clause of the claim is settled as well: with the separators in the
wrong order (first colon before first dot) parsing fails, and it also fails
whenever the agent slice or the device slice does not parse as an unsigned
byte, in particular on the out-of-range values 300 and 256 evaluated
concretely. -/
theorem c8_jid_parse_ad (left : List Char) (di ci a d : Nat)
    (h1 : left.findIdx? (fun c => c == '.') = some di)
    (h2 : left.findIdx? (fun c => c == ':') = some ci)
    (h3 : di < ci)
    (h4 : parse_u8 ((left.drop (di + 1)).take (ci - (di + 1))) = some a)
    (h5 : parse_u8 (left.drop (ci + 1)) = some d)
    (h6 : ∀ c ∈ left, c ≠ '@') :
    JID.from_str (left ++ '@' :: DEFAULT_USER_SERVER)
      = some { user := left.take di, agent := some a, device := some d,
               server := DEFAULT_USER_SERVER } ∧
    (∀ (l2 : List Char) (dj cj : Nat),
        l2.findIdx? (fun c => c == '.') = some dj →
        l2.findIdx? (fun c => c == ':') = some cj →
        (∀ c ∈ l2, c ≠ '@') →
        cj < dj →
        JID.from_str (l2 ++ '@' :: DEFAULT_USER_SERVER) = none) ∧
    (∀ (l2 : List Char) (dj cj : Nat),
        l2.findIdx? (fun c => c == '.') = some dj →
        l2.findIdx? (fun c => c == ':') = some cj →
        (∀ c ∈ l2, c ≠ '@') →
        dj < cj →
        parse_u8 ((l2.drop (dj + 1)).take (cj - (dj + 1))) = none →
        JID.from_str (l2 ++ '@' :: DEFAULT_USER_SERVER) = none) ∧
    (∀ (l2 : List Char) (dj cj a2 : Nat),
        l2.findIdx? (fun c => c == '.') = some dj →
        l2.findIdx? (fun c => c == ':') = some cj →
        (∀ c ∈ l2, c ≠ '@') →
        dj < cj →
        parse_u8 ((l2.drop (dj + 1)).take (cj - (dj + 1))) = some a2 →
        parse_u8 (l2.drop (cj + 1)) = none →
        JID.from_str (l2 ++ '@' :: DEFAULT_USER_SERVER) = none) ∧
    JID.from_str (strL "447911234567.300:2@s.whatsapp.net") = none ∧
    JID.from_str (strL "447911234567.0:256@s.whatsapp.net") = none ∧
    JID.from_str (strL "x:1.2@s.whatsapp.net") = none ∧
    JID.from_str (strL "447911234567.0:2@s.whatsapp.net")
      = some { user := strL "447911234567", agent := some 0, device := some 2,
               server := DEFAULT_USER_SERVER } ∧
    JID.to_string { user := strL "447911234567", agent := some 0, device := some 2,
                    server := DEFAULT_USER_SERVER }
      = strL "447911234567.0:2@s.whatsapp.net" := by
  refine ⟨?_, ?_, ?_, ?_, by decide, by decide, by decide, by decide, by decide⟩
  · rw [from_str_ad_route left di ci h1 h2 h6]
    unfold parse_ad_jid
    rw [h1, h2]
    simp only [if_neg (show ¬(ci + 1 ≤ di) by omega), h4, h5]
  · intro l2 dj cj hdj hcj hat hord
    rw [from_str_ad_route l2 dj cj hdj hcj hat]
    unfold parse_ad_jid
    rw [hdj, hcj]
    simp only [if_pos (show cj + 1 ≤ dj by omega)]
  · intro l2 dj cj hdj hcj hat hord hpu
    rw [from_str_ad_route l2 dj cj hdj hcj hat]
    unfold parse_ad_jid
    rw [hdj, hcj]
    simp only [if_neg (show ¬(cj + 1 ≤ dj) by omega), hpu]
  · intro l2 dj cj a2 hdj hcj hat hord hpa hpd
    rw [from_str_ad_route l2 dj cj hdj hcj hat]
    unfold parse_ad_jid
    rw [hdj, hcj]
    simp only [if_neg (show ¬(cj + 1 ≤ dj) by omega), hpa, hpd]

theorem c8_jid_parse_ad_witness :
    12 < 14 ∧
    (JID.from_str (strL "447911234567.0:2" ++ '@' :: DEFAULT_USER_SERVER)
      = some { user := (strL "447911234567.0:2").take 12, agent := some 0, device := some 2,
               server := DEFAULT_USER_SERVER } ∧
     (∀ (l2 : List Char) (dj cj : Nat),
        l2.findIdx? (fun c => c == '.') = some dj →
        l2.findIdx? (fun c => c == ':') = some cj →
        (∀ c ∈ l2, c ≠ '@') →
        cj < dj →
        JID.from_str (l2 ++ '@' :: DEFAULT_USER_SERVER) = none) ∧
     (∀ (l2 : List Char) (dj cj : Nat),
        l2.findIdx? (fun c => c == '.') = some dj →
        l2.findIdx? (fun c => c == ':') = some cj →
        (∀ c ∈ l2, c ≠ '@') →
        dj < cj →
        parse_u8 ((l2.drop (dj + 1)).take (cj - (dj + 1))) = none →
        JID.from_str (l2 ++ '@' :: DEFAULT_USER_SERVER) = none) ∧
     (∀ (l2 : List Char) (dj cj a2 : Nat),
        l2.findIdx? (fun c => c == '.') = some dj →
        l2.findIdx? (fun c => c == ':') = some cj →
        (∀ c ∈ l2, c ≠ '@') →
        dj < cj →
        parse_u8 ((l2.drop (dj + 1)).take (cj - (dj + 1))) = some a2 →
        parse_u8 (l2.drop (cj + 1)) = none →
        JID.from_str (l2 ++ '@' :: DEFAULT_USER_SERVER) = none) ∧
     JID.from_str (strL "447911234567.300:2@s.whatsapp.net") = none ∧
     JID.from_str (strL "447911234567.0:256@s.whatsapp.net") = none ∧
     JID.from_str (strL "x:1.2@s.whatsapp.net") = none ∧
     JID.from_str (strL "447911234567.0:2@s.whatsapp.net")
      = some { user := strL "447911234567", agent := some 0, device := some 2,
               server := DEFAULT_USER_SERVER } ∧
     JID.to_string { user := strL "447911234567", agent := some 0, device := some 2,
                     server := DEFAULT_USER_SERVER }
      = strL "447911234567.0:2@s.whatsapp.net") :=
  ⟨by norm_num,
   c8_jid_parse_ad (strL "447911234567.0:2") 12 14 0 2 (by decide) (by decide) (by norm_num)
     (by decide) (by decide) (by decide)⟩

/-- Claim C5 counterexample: the claim extends the packed encode-decode
identity to every hex-alphabet string including lowercase letters; but the
string a is packed to nibble value 10 and unpacked as the uppercase letter
A, so decoding does not return the original string. -/
theorem c5_lowercase_hex_counterexample :
    BinaryEncoder.write_packed_bytes (strL "a") HEX8 = some [HEX8, 129, 175] ∧
    BinaryDecoder.read_packed_8 HEX8 [129, 175] = some (strL "A", []) ∧
    strL "A" ≠ strL "a" := by
  refine ⟨by decide, ?_, by decide⟩
  decide

/-- Claim C5 as amended: for every nibble-alphabet string of length at most
PACKED_MAX that misses both token tables, write_string emits the NIBBLE8
tag, one length byte whose low 7 bits are the rounded-up half length and
whose top bit is set exactly when the length is odd, then exactly that many
payload bytes, and read_packed_8 recovers the string exactly; the same
identity holds over the hex alphabet restricted to digits and UPPERCASE
letters (a lowercase hex string instead decodes as its uppercase form, as
the counterexample shows). -/
theorem c5_packed_roundtrip (t : TokenTables) (s : List Char)
    (hsingle : t.indexOfSingle s = none) (hdouble : t.indexOfDouble s = none) :
    (BinaryEncoder.validate_nibble s = true →
      ∃ payload,
        BinaryEncoder.write_string t s
          = some (NIBBLE8 :: (if s.length % 2 != 0 then ((s.length + 1) / 2) ||| 128
                              else (s.length + 1) / 2) :: payload) ∧
        payload.length = (s.length + 1) / 2 ∧
        (if s.length % 2 != 0 then ((s.length + 1) / 2) ||| 128
         else (s.length + 1) / 2) &&& 127 = (s.length + 1) / 2 ∧
        (if s.length % 2 != 0 then ((s.length + 1) / 2) ||| 128
         else (s.length + 1) / 2) >>> 7 = (if s.length % 2 = 0 then 0 else 1) ∧
        ∀ rest, BinaryDecoder.read_packed_8 NIBBLE8
            ((if s.length % 2 != 0 then ((s.length + 1) / 2) ||| 128
              else (s.length + 1) / 2) :: payload ++ rest) = some (s, rest)) ∧
    (BinaryEncoder.validate_nibble s = false → BinaryEncoder.validate_hex s = true →
      (∀ c ∈ s, ¬(97 ≤ c.toNat ∧ c.toNat ≤ 102)) →
      ∃ payload,
        BinaryEncoder.write_string t s
          = some (HEX8 :: (if s.length % 2 != 0 then ((s.length + 1) / 2) ||| 128
                           else (s.length + 1) / 2) :: payload) ∧
        payload.length = (s.length + 1) / 2 ∧
        ∀ rest, BinaryDecoder.read_packed_8 HEX8
            ((if s.length % 2 != 0 then ((s.length + 1) / 2) ||| 128
              else (s.length + 1) / 2) :: payload ++ rest) = some (s, rest)) := by
  constructor
  · intro hv
    obtain ⟨hplen, hchars⟩ := validate_nibble_spec s hv
    have hws : BinaryEncoder.write_string t s = BinaryEncoder.write_packed_bytes s NIBBLE8 := by
      unfold BinaryEncoder.write_string
      rw [hsingle, hdouble, if_pos hv]
    obtain ⟨payload, hw, hl, hr⟩ :=
      write_packed_roundtrip NIBBLE8 BinaryEncoder.pack_nibble 0 rfl rfl rfl (by norm_num)
        s hplen (fun c hc => nibble_hchar c (hchars c hc))
        (fun c hc => by rcases hchars c hc with ⟨h1, h2⟩ | h | h <;> omega)
    have hhalf : (s.length + 1) / 2 < 128 := by
      have : s.length ≤ 254 := hplen
      omega
    refine ⟨payload, by rw [hws, hw], hl, ?_, ?_, hr⟩
    · by_cases he : s.length % 2 = 0
      · have hbne : ((s.length % 2 : Nat) != 0) = false := by simp [he]
        rw [hbne]
        simp only [Bool.false_eq_true, if_false]
        exact (len_byte_bits_even _ hhalf).1
      · have ho : s.length % 2 = 1 := by omega
        have hbne : ((s.length % 2 : Nat) != 0) = true := by simp [ho]
        rw [hbne]
        simp only [if_true]
        exact (len_byte_bits_odd _ hhalf).1
    · by_cases he : s.length % 2 = 0
      · have hbne : ((s.length % 2 : Nat) != 0) = false := by simp [he]
        rw [hbne, if_pos he]
        simp only [Bool.false_eq_true, if_false]
        exact (len_byte_bits_even _ hhalf).2
      · have ho : s.length % 2 = 1 := by omega
        have hbne : ((s.length % 2 : Nat) != 0) = true := by simp [ho]
        rw [hbne, if_neg he]
        simp only [if_true]
        exact (len_byte_bits_odd _ hhalf).2
  · intro hnv hv hnl
    obtain ⟨hplen, hchars⟩ := validate_hex_spec s hv
    have hchars2 : ∀ c ∈ s, (48 ≤ c.toNat ∧ c.toNat ≤ 57) ∨ (65 ≤ c.toNat ∧ c.toNat ≤ 70) := by
      intro c hc
      rcases hchars c hc with h | h | h
      · exact Or.inl h
      · exact Or.inr h
      · exact absurd h (hnl c hc)
    have hws : BinaryEncoder.write_string t s = BinaryEncoder.write_packed_bytes s HEX8 := by
      unfold BinaryEncoder.write_string
      rw [hsingle, hdouble, if_neg (by simp [hnv]), if_pos hv]
    obtain ⟨payload, hw, hl, hr⟩ :=
      write_packed_roundtrip HEX8 BinaryEncoder.pack_hex 70 rfl rfl rfl (by norm_num)
        s hplen (fun c hc => hex_hchar c (hchars2 c hc))
        (fun c hc => by rcases hchars2 c hc with ⟨h1, h2⟩ | ⟨h1, h2⟩ <;> omega)
    exact ⟨payload, by rw [hws, hw], hl, hr⟩

theorem c5_packed_roundtrip_witness :
    noTokens.indexOfSingle (strL "1234567890") = none ∧
    BinaryEncoder.validate_nibble (strL "1234567890") = true ∧
    (∃ payload,
        BinaryEncoder.write_string noTokens (strL "1234567890")
          = some (NIBBLE8 :: 5 :: payload) ∧
        payload.length = 5 ∧
        (5 : Nat) &&& 127 = 5 ∧
        (5 : Nat) >>> 7 = 0 ∧
        ∀ rest, BinaryDecoder.read_packed_8 NIBBLE8 (5 :: payload ++ rest)
          = some (strL "1234567890", rest)) ∧
    BinaryEncoder.validate_nibble (strL "ABC") = false ∧
    BinaryEncoder.validate_hex (strL "ABC") = true ∧
    (∃ payload,
        BinaryEncoder.write_string noTokens (strL "ABC")
          = some (HEX8 :: 130 :: payload) ∧
        payload.length = 2 ∧
        ∀ rest, BinaryDecoder.read_packed_8 HEX8 (130 :: payload ++ rest)
          = some (strL "ABC", rest)) :=
  ⟨rfl, rfl,
   (c5_packed_roundtrip noTokens (strL "1234567890") rfl rfl).1 rfl,
   rfl, rfl,
   (c5_packed_roundtrip noTokens (strL "ABC") rfl rfl).2 rfl rfl (by decide)⟩
